import Mathlib

/-!
Shallow embedding of the jenkins-client library (Go) and verification of its
specification claims.  Pure computations of the Go code (path construction,
payload building, response decoding) are translated into executable Lean
definitions; HTTP transport and the filesystem appear as explicit parameters
(a transport result of type Except, a filesystem of type String to Option bytes).
Strings are modelled at the byte-agnostic character-list level where proofs
need list induction, with String wrappers matching the Go signatures.
-/

namespace JenkinsClient

/-- Characters of a string; the Go code treats strings as sequences split and
concatenated on exact character boundaries, which List Char models. -/
abbrev Str := List Char

/-- Model of Go strings.Split with the single-space separator: splits on every
occurrence of the space character; the result is never empty and the empty
input yields one empty segment, as in Go. -/
def splitOnSpace : Str → List Str
  | [] => [[]]
  | c :: cs =>
    match splitOnSpace cs with
    | [] => [[c]]
    | h :: t => if c = ' ' then [] :: h :: t else (c :: h) :: t

/-- Model of Go strings.HasPrefix p s, i.e. p is a prefix of s. -/
def goHasPrefix (s p : Str) : Bool := p.isPrefixOf s

/-- Character list of the Jenkins job-path segment prefix "/job/". -/
def jobPrefix : Str := '/' :: 'j' :: 'o' :: 'b' :: '/' :: []

/-- Character list of the prefix "job/". -/
def jobPrefixBare : Str := 'j' :: 'o' :: 'b' :: '/' :: []

/-- The pass-through guard of ParseJobPath: the name is empty or already
begins with "/job/" or "job/". -/
def jobPathResolved (jobName : Str) : Bool :=
  decide (jobName = []) || goHasPrefix jobName jobPrefix || goHasPrefix jobName jobPrefixBare

/-- List-level translation of ParseJobPath (src/pkg/job/job.go): pass the name
through when it is empty or already carries a job prefix, otherwise split on
spaces and accumulate "/job/" ++ segment over the segments, starting from the
empty path, exactly as the Go loop does with fmt.Sprintf. -/
def parseJobPathL (jobName : Str) : Str :=
  if jobPathResolved jobName then
    jobName
  else
    (splitOnSpace jobName).foldl (fun path item => path ++ jobPrefix ++ item) []

/-- Stated from the claim, for comparison with the source translation: an
input that is empty or begins with "/job/" or "job/" is returned unchanged;
any other input is split on single spaces and the pieces "/job/" ++ segment
are concatenated in order with no other separator. -/
def resolveJobPathSpecL (jobName : Str) : Str :=
  if jobPathResolved jobName then jobName
  else ((splitOnSpace jobName).map (fun seg => jobPrefix ++ seg)).flatten

/-- ParseJobPath at the Go signature: String to String. -/
def ParseJobPath (jobName : String) : String := ⟨parseJobPathL jobName.data⟩

/-- Model of Go strings.Join: interleave the separator between elements. -/
def goJoin (sep : Str) : List Str → Str
  | [] => []
  | [x] => x
  | x :: xs => x ++ sep ++ goJoin sep xs

/-- Character list of the pipeline-path separator "/pipelines/". -/
def pipeSep : Str := '/' :: 'p' :: 'i' :: 'p' :: 'e' :: 'l' :: 'i' :: 'n' :: 'e' :: 's' :: '/' :: []

/-- Character list of the prefix "pipelines/". -/
def pipePrefix : Str := 'p' :: 'i' :: 'p' :: 'e' :: 'l' :: 'i' :: 'n' :: 'e' :: 's' :: '/' :: []

/-- List-level translation of ParsePipelinePath (src/pkg/job/job.go): the empty
segment list yields the empty path, otherwise "pipelines/" ++ the segments
joined by "/pipelines/". -/
def parsePipelinePathL (pipelines : List Str) : Str :=
  if pipelines.length = 0 then []
  else pipePrefix ++ goJoin pipeSep pipelines

/-- ParsePipelinePath at the Go signature (the variadic argument becomes a list). -/
def ParsePipelinePath (pipelines : List String) : String :=
  ⟨parsePipelinePathL (pipelines.map String.data)⟩

/-- JSON values as produced by Go json.Marshal for the payload types used by
BuildWithParams: null (a nil interface), strings, objects with an ordered field
list, and arrays. -/
inductive Json where
  | null : Json
  | str : String → Json
  | obj : List (String × Json) → Json
  | arr : List Json → Json

/-- Lowercase hexadecimal digit, for the escaped form of control characters. -/
def hexDigit (n : Nat) : Char :=
  if n < 10 then Char.ofNat (48 + n) else Char.ofNat (87 + n)

/-- Escaping of one character inside a JSON string, following the Go encoder:
quote, backslash, newline, carriage return and tab get two-character escapes,
the HTML-sensitive characters and remaining control characters get unicode
escapes, everything else stands for itself. -/
def escapeJsonChar (c : Char) : String :=
  if c = '"' then "\\\""
  else if c = '\\' then "\\\\"
  else if c = '\n' then "\\n"
  else if c = '\r' then "\\r"
  else if c = '\t' then "\\t"
  else if c = '<' then "\\u003c"
  else if c = '>' then "\\u003e"
  else if c = '&' then "\\u0026"
  else if c.toNat < 32 then
    "\\u00" ++ ⟨[hexDigit (c.toNat / 16), hexDigit (c.toNat % 16)]⟩
  else ⟨[c]⟩

/-- Escaping of a whole JSON string body. -/
def escapeJsonString (s : String) : String := String.join (s.data.map escapeJsonChar)

mutual
/-- Compact rendering of a JSON value, as Go json.Marshal emits it. -/
def renderJson : Json → String
  | .null => "null"
  | .str s => "\"" ++ escapeJsonString s ++ "\""
  | .obj fields => "\x7b" ++ renderFields fields ++ "\x7d"
  | .arr items => "[" ++ renderItems items ++ "]"

/-- Comma-separated rendering of object fields. -/
def renderFields : List (String × Json) → String
  | [] => ""
  | [(k, v)] => "\"" ++ escapeJsonString k ++ "\":" ++ renderJson v
  | (k, v) :: rest =>
    "\"" ++ escapeJsonString k ++ "\":" ++ renderJson v ++ "," ++ renderFields rest

/-- Comma-separated rendering of array items. -/
def renderItems : List Json → String
  | [] => ""
  | [v] => renderJson v
  | v :: rest => renderJson v ++ "," ++ renderItems rest
end

/-- The string constant StringParameterDefinition of src/pkg/job/job.go. -/
def StringParameterDefinition : String := "StringParameterDefinition"

/-- The string constant FileParameterDefinition of src/pkg/job/job.go. -/
def FileParameterDefinition : String := "FileParameterDefinition"

/-- DefaultParameterValue of src/pkg/job/job.go; the Go Value field is an
untyped interface, modelled as the JSON value it marshals to. -/
structure DefaultParameterValue where
  Description : String
  Value : Json

/-- ParameterDefinition of src/pkg/job/job.go.  The Go field named Type is
spelled Type_ because Type is reserved in Lean. -/
structure ParameterDefinition where
  Description : String
  Name : String
  Type_ : String
  Value : String
  Filepath : String
  DefaultParameterValue : DefaultParameterValue

/-- json.Marshal of a DefaultParameterValue: fields in declaration order with
their Go names. -/
def marshalDefaultParameterValue (d : DefaultParameterValue) : Json :=
  Json.obj [("Description", Json.str d.Description), ("Value", d.Value)]

/-- json.Marshal of a ParameterDefinition: fields in declaration order, with
the tagged names name, value and file for Name, Value and Filepath. -/
def marshalParam (p : ParameterDefinition) : Json :=
  Json.obj [("Description", Json.str p.Description),
            ("name", Json.str p.Name),
            ("Type", Json.str p.Type_),
            ("value", Json.str p.Value),
            ("file", Json.str p.Filepath),
            ("DefaultParameterValue", marshalDefaultParameterValue p.DefaultParameterValue)]

/-- The serialization choice of BuildWithParams (src/pkg/job/job.go lines
144-149): a single remaining string parameter is marshalled alone, as a JSON
object, any other number is marshalled as the JSON array of the list. -/
def marshalStringParams : List ParameterDefinition → Json
  | [sp] => marshalParam sp
  | sps => Json.arr (sps.map marshalParam)

/-- The literal form field value BuildWithParams builds by wrapping the
marshalled parameters: an open brace, the quoted key parameter, a colon and a
space, the serialized parameters and a closing brace. -/
def jsonFieldValue (sps : List ParameterDefinition) : String :=
  "\x7b\"parameter\": " ++ renderJson (marshalStringParams sps) ++ "\x7d"

/-- Model of Go filepath.Base on a slash-separated path: empty input yields a
dot, a path of only slashes yields a slash, otherwise the part after the last
slash once trailing slashes are removed. -/
def goBase (path : String) : String :=
  if path = "" then "." else
  let l := path.data.reverse.dropWhile (· = '/')
  if l = [] then "/" else ⟨(l.takeWhile (· ≠ '/')).reverse⟩

/-- One part of a multipart request body, in the order written: a file part
created by CreateFormFile with the file content copied into it, or a plain
form field. -/
inductive Part where
  | filePart (fieldName fileName : String) (content : List Nat)
  | field (name value : String)
deriving DecidableEq

/-- The request body BuildWithParams hands to the transport: either a
multipart body, abstracted as its ordered list of parts, or an URL-encoded
form, abstracted as its field list. -/
inductive ReqBody where
  | multipart (parts : List Part)
  | form (fields : List (String × String))
deriving DecidableEq

/-- The content type chosen for the request: the multipart content type with
its boundary, or the constant application/x-www-form-urlencoded. -/
inductive ContentType where
  | multipartFormData
  | applicationForm
deriving DecidableEq

/-- The request BuildWithParams issues, up to the byte-level body encoders. -/
structure BuildRequest where
  contentType : ContentType
  body : ReqBody
deriving DecidableEq

/-- The filesystem as BuildWithParams sees it: os.Open either yields the file
content or fails with an error. -/
abbrev FileSystem := String → Option (List Nat)

/-- Whether a parameter carries the file type tag, the test of the parameter
loop in BuildWithParams. -/
def isFileParam (p : ParameterDefinition) : Bool :=
  decide (p.Type_ = FileParameterDefinition)

/-- The multipart file part a file parameter contributes: the form-file name
is the full path and the file name its base, with the file content copied in.
-/
def filePartOf (fs : FileSystem) (p : ParameterDefinition) : Part :=
  Part.filePart p.Filepath (goBase p.Filepath) ((fs p.Filepath).getD [])

/-- The parameter loop of BuildWithParams (src/pkg/job/job.go lines 118-142):
walks the parameters in order; a file-typed parameter is opened (failure
aborts the whole call with that error) and written as a file part named by its
path with the base name as file name; every other parameter is collected into
the string-parameter list.  Returns the hasFileParam flag, the collected
string parameters and the file parts in order. -/
def processParams (fs : FileSystem) :
    List ParameterDefinition → Except String (Bool × List ParameterDefinition × List Part)
  | [] => .ok (false, [], [])
  | p :: ps =>
    if p.Type_ = FileParameterDefinition then
      match fs p.Filepath with
      | none => .error ("open " ++ p.Filepath ++ ": no such file or directory")
      | some content =>
        match processParams fs ps with
        | .error e => .error e
        | .ok (_, sps, parts) =>
          .ok (true, sps, Part.filePart p.Filepath (goBase p.Filepath) content :: parts)
    else
      match processParams fs ps with
      | .error e => .error e
      | .ok (hasFile, sps, parts) => .ok (hasFile, p :: sps, parts)

/-- BuildWithParams (src/pkg/job/job.go lines 107-173) up to the transport
call: processes the parameters, serializes the string parameters, and builds
either a multipart request whose parts are the file parts followed by the
json form field, or an URL-encoded form request with the single json field.
An error from opening a parameter file is returned before any request value
exists. -/
def buildWithParams (fs : FileSystem) (parameters : List ParameterDefinition) :
    Except String BuildRequest :=
  match processParams fs parameters with
  | .error e => .error e
  | .ok (hasFileParam, stringParameters, fileParts) =>
    let value := jsonFieldValue stringParameters
    if hasFileParam then
      .ok { contentType := .multipartFormData,
            body := .multipart (fileParts ++ [Part.field "json" value]) }
    else
      .ok { contentType := .applicationForm,
            body := .form [("json", value)] }

/-- A concrete filesystem for witnesses: one readable file at path f.txt. -/
def fsEx : FileSystem := fun path => if path = "f.txt" then some [104, 105] else none

/-- A concrete default value for witness parameters. -/
def dpvEx : DefaultParameterValue := { Description := "", Value := Json.null }

/-- A concrete file-typed parameter for witnesses. -/
def fileParamEx : ParameterDefinition :=
  { Description := "", Name := "data", Type_ := "FileParameterDefinition",
    Value := "", Filepath := "f.txt", DefaultParameterValue := dpvEx }

/-- A concrete string-typed parameter for witnesses. -/
def strParamEx : ParameterDefinition :=
  { Description := "", Name := "X", Type_ := "StringParameterDefinition",
    Value := "1", Filepath := "", DefaultParameterValue := dpvEx }

/-- The Log structure of src/pkg/job/job.go. -/
structure Log where
  HasMore : Bool
  NextStart : Int
  Text : String
deriving DecidableEq

/-- Model of Go strings.ToLower restricted to character-wise lowering, which
is what the header comparison in Log needs. -/
def goToLower (s : String) : String := ⟨s.data.map Char.toLower⟩

/-- The digit-accumulation loop of Go strconv.ParseUint on base 10: left to
right, n becomes n * 10 + digit; any non-digit character is a syntax error. -/
def parseDigitsAcc (acc : Nat) : Str → Option Nat
  | [] => some acc
  | c :: cs =>
    if c.isDigit then parseDigitsAcc (acc * 10 + (c.toNat - 48)) cs else none

/-- The digit value of a non-empty all-digit string, none on empty input or on
any non-digit, which is the base-10 syntax Go ParseUint accepts. -/
def decValue (l : Str) : Option Nat :=
  if l = [] then none else parseDigitsAcc 0 l

/-- The non-negative branch of the ParseInt result: 0 on a syntax error, the
value clamped to the largest 64-bit integer on a range error. -/
def clampPos (o : Option Nat) : Int :=
  match o with
  | none => 0
  | some n => min (n : Int) (2 ^ 63 - 1)

/-- The negative branch of the ParseInt result: 0 on a syntax error, the
negated value clamped to the smallest 64-bit integer on a range error. -/
def clampNeg (o : Option Nat) : Int :=
  match o with
  | none => 0
  | some n => max (-(n : Int)) (-(2 ^ 63))

/-- Model of the first return value of Go strconv.ParseInt(s, 10, 64), whose
error the Log code discards: an optional sign followed by decimal digits; a
syntactically invalid string yields 0, while an out-of-range value is clamped
to the 64-bit boundary the Go implementation returns alongside the discarded
range error. -/
def goParseInt64 (s : String) : Int :=
  match s.data with
  | [] => 0
  | c :: rest =>
    if c = '-' then clampNeg (decValue rest)
    else if c = '+' then clampPos (decValue rest)
    else clampPos (decValue (c :: rest))

/-- Stated from the claim: the strings that parse as a base-10 64-bit integer
without a syntax error, namely an optional sign followed by at least one
digit; everything else is unparseable. -/
def intSyntaxOk (s : String) : Bool :=
  match s.data with
  | [] => false
  | c :: rest =>
    if c = '-' || c = '+' then decide (rest ≠ []) && rest.all Char.isDigit
    else (c :: rest).all Char.isDigit

/-- An HTTP response as the Log code reads it: status code, a header lookup in
the style of Header.Get (absent headers read as the empty string), and the
body text. -/
structure HttpResponse where
  status : Nat
  headers : String → String
  body : String

/-- The response handling of Log (src/pkg/job/job.go lines 308-354) after a
successful transport: start from the default Log value; on status 200 fill
Text from the body, HasMore from the lowercased X-More-Data header compared to
the literal true, and NextStart from X-Text-Size through ParseInt with the
error ignored; on any other status keep the defaults. -/
def logOfResponse (resp : HttpResponse) : Log :=
  let jobLog : Log := { HasMore := false, NextStart := 0, Text := "" }
  if resp.status = 200 then
    { Text := resp.body,
      HasMore := goToLower (resp.headers "X-More-Data") = "true",
      NextStart := goParseInt64 (resp.headers "X-Text-Size") }
  else jobLog

/-- Log including its error result: a transport failure is returned as the
error together with the default Log value; once the transport has produced a
response no error is reported, whatever the status. -/
def logOp (transport : Except String HttpResponse) : Log × Option String :=
  match transport with
  | .error e => ({ HasMore := false, NextStart := 0, Text := "" }, some e)
  | .ok resp => (logOfResponse resp, none)

/-- A build record as GetHistory accumulates it; the claims only inspect
identity of records, so the record keeps the fields GetHistory reads. -/
structure Build where
  Number : Nat
  URL : String
deriving DecidableEq, Inhabited

/-- The fetch loop of GetHistory (src/pkg/job/job.go lines 286-294) over the
build numbers of the job, with GetBuild abstracted as the fetch oracle: builds
are fetched one by one in list order; the first failing fetch stops the loop
and its error is returned together with the builds accumulated so far. -/
def getHistoryLoop (fetch : Nat → Except String Build) :
    List Nat → List Build × Option String
  | [] => ([], none)
  | n :: ns =>
    match fetch n with
    | .error e => ([], some e)
    | .ok b =>
      match getHistoryLoop fetch ns with
      | (bs, err) => (b :: bs, err)

/-- GetHistory (src/pkg/job/job.go lines 282-297): fetch the job, then walk
its build list; a failure of the job fetch itself yields no builds and that
error. -/
def getHistory (getJob : Except String (List Nat)) (fetch : Nat → Except String Build) :
    List Build × Option String :=
  match getJob with
  | .error e => ([], some e)
  | .ok buildList => getHistoryLoop fetch buildList

/-- The status check of Delete (src/pkg/job/job.go lines 391-408): a transport
error passes through; otherwise any status other than 200 and 302 becomes a
descriptive error carrying the code, and 200 or 302 is success. -/
def deleteJob (transport : Except String Nat) : Option String :=
  match transport with
  | .error e => some e
  | .ok statusCode =>
    if statusCode ≠ 200 ∧ statusCode ≠ 302 then
      some ("unexpected status code: " ++ toString statusCode)
    else none

/-- Modelled from the spec: core.JenkinsCore.RequestWithoutData is not under
src/; per the spec an unexpected status code is converted into a descriptive
error carrying the received code, and the status code is returned alongside.
-/
def requestWithoutData (statusCode expected : Nat) : Nat × Option String :=
  (statusCode,
   if statusCode = expected then none
   else some ("unexpected status code: " ++ toString statusCode))

/-- CreateJobInFolder (src/pkg/job/job.go lines 369-388) after the transport
has produced a status: the request expects 200, and afterwards a 302 code
clears the error, so a redirect counts as success. -/
def createJobInFolder (transport : Except String Nat) : Option String :=
  match transport with
  | .error e => some e
  | .ok statusCode =>
    match requestWithoutData statusCode 200 with
    | (code, err) => if code = 302 then none else err

/-- The InstalledPlugin structure of the plugin manager source
(src/unnamed/part_000); dependencies are kept abstract since no claim reads
them. -/
structure InstalledPlugin where
  Active : Bool
  Enabled : Bool
  Bundled : Bool
  Downgradable : Bool
  Deleted : Bool
  Enable : Bool
  ShortName : String
  LongName : String
  Version : String
  URL : String
  HasUpdate : Bool
  Pinned : Bool
  RequiredCoreVesion : String
  MinimumJavaVersion : String
  SupportDynamicLoad : String
  BackVersion : String
deriving DecidableEq

/-- The InstalledPluginList structure of src/unnamed/part_000. -/
structure InstalledPluginList where
  Plugins : List InstalledPlugin
deriving DecidableEq

/-- The search loop of FindInstalledPlugin (src/unnamed/part_000 lines
116-121): the first plugin whose ShortName equals the requested name, if any.
-/
def findPluginLoop (name : String) : List InstalledPlugin → Option InstalledPlugin
  | [] => none
  | p :: ps => if p.ShortName = name then some p else findPluginLoop name ps

/-- FindInstalledPlugin (src/unnamed/part_000 lines 112-124) with GetPlugins
abstracted as the fetch result: a fetch failure propagates the error with no
plugin; on success the loop result is returned and the error stays nil even
when no plugin matches. -/
def findInstalledPlugin (fetch : Except String InstalledPluginList) (name : String) :
    Option InstalledPlugin × Option String :=
  match fetch with
  | .error e => (none, some e)
  | .ok plugins => (findPluginLoop name plugins.Plugins, none)

/-- A concrete 200 response with progressive-log headers, for witnesses. -/
def respEx : HttpResponse :=
  { status := 200,
    headers := fun k =>
      if k = "X-More-Data" then "True" else if k = "X-Text-Size" then "42" else "",
    body := "hello" }

/-- A concrete non-200 response, for witnesses. -/
def respEx404 : HttpResponse :=
  { status := 404, headers := fun _ => "", body := "ignored" }

/-- A concrete build record, for witnesses. -/
def buildEx1 : Build := { Number := 1, URL := "u1" }

/-- Another concrete build record, for witnesses. -/
def buildEx3 : Build := { Number := 3, URL := "u3" }

/-- A concrete fetch oracle whose fetch of build 2 fails, for witnesses. -/
def fetchEx : Nat → Except String Build :=
  fun m => if m = 1 then .ok buildEx1 else if m = 2 then .error "boom" else .ok buildEx3

/-- A concrete installed plugin, for witnesses. -/
def pluginEx : InstalledPlugin :=
  { Active := true, Enabled := true, Bundled := false, Downgradable := false,
    Deleted := false, Enable := true, ShortName := "git", LongName := "Git plugin",
    Version := "1.0", URL := "", HasUpdate := false, Pinned := false,
    RequiredCoreVesion := "", MinimumJavaVersion := "", SupportDynamicLoad := "",
    BackVersion := "" }

end JenkinsClient

namespace JenkinsClient

/-- splitOnSpace never returns the empty list of segments. -/
theorem splitOnSpace_ne_nil (l : Str) : splitOnSpace l ≠ [] := by
  cases l with
  | nil => simp [splitOnSpace]
  | cons c cs =>
    simp only [splitOnSpace]
    cases h : splitOnSpace cs with
    | nil => simp
    | cons h t =>
      by_cases hc : c = ' ' <;> simp [hc]

/-- The accumulator is a prefix of the fold that builds a job path. -/
theorem foldl_jobPath_extends (segs : List Str) (acc : Str) :
    acc <+: segs.foldl (fun path item => path ++ jobPrefix ++ item) acc := by
  induction segs generalizing acc with
  | nil => exact List.prefix_refl acc
  | cons s ss ih =>
    simp only [List.foldl_cons]
    exact List.IsPrefix.trans (by simp) (ih (acc ++ jobPrefix ++ s))

/-- On a name that fails the pass-through guard, the built path starts with
"/job/". -/
theorem parseJobPathL_startsJob (l : Str) (h : jobPathResolved l = false) :
    jobPrefix <+: parseJobPathL l := by
  simp only [parseJobPathL, h, Bool.false_eq_true, if_false]
  obtain ⟨s, ss, hs⟩ : ∃ s ss, splitOnSpace l = s :: ss := by
    cases hsp : splitOnSpace l with
    | nil => exact absurd hsp (splitOnSpace_ne_nil l)
    | cons s ss => exact ⟨s, ss, rfl⟩
  rw [hs]
  simp only [List.foldl_cons, List.nil_append]
  exact List.IsPrefix.trans (List.prefix_append jobPrefix s)
    (foldl_jobPath_extends ss (jobPrefix ++ s))

/-- A name that passes the pass-through guard is returned unchanged. -/
theorem parseJobPathL_of_resolved (l : Str) (h : jobPathResolved l = true) :
    parseJobPathL l = l := by
  simp [parseJobPathL, h]

/-- The job-path fold is the concatenation of the prefixed segments. -/
theorem foldl_jobPath_eq (segs : List Str) (acc : Str) :
    segs.foldl (fun path item => path ++ jobPrefix ++ item) acc
      = acc ++ (segs.map (fun seg => jobPrefix ++ seg)).flatten := by
  induction segs generalizing acc with
  | nil => simp
  | cons s ss ih =>
    rw [List.foldl_cons, ih]
    simp [List.append_assoc]

/-- Claim C3: ParseJobPath returns the input unchanged when it is empty or
begins with "/job/" or "job/", and otherwise splits on single spaces and
concatenates "/job/" ++ segment over the segments in order with no other
separator; in particular the empty string maps to itself, "/job/a" maps to
itself, and "a b" maps to "/job/a/job/b". -/
theorem parseJobPath_spec :
    (∀ s : String, ParseJobPath s = ⟨resolveJobPathSpecL s.data⟩) ∧
    ParseJobPath "" = "" ∧ ParseJobPath "/job/a" = "/job/a" ∧
    ParseJobPath "a b" = "/job/a/job/b" := by
  refine ⟨fun s => ?_, by decide, by decide, by decide⟩
  show (⟨parseJobPathL s.data⟩ : String) = ⟨resolveJobPathSpecL s.data⟩
  apply String.ext
  show parseJobPathL s.data = resolveJobPathSpecL s.data
  unfold parseJobPathL resolveJobPathSpecL
  cases h : jobPathResolved s.data with
  | true => simp
  | false => simpa using foldl_jobPath_eq (splitOnSpace s.data) []

/-- Idempotence of ParseJobPath at the character-list level. -/
theorem parseJobPathL_idem (l : Str) :
    parseJobPathL (parseJobPathL l) = parseJobPathL l := by
  cases h : jobPathResolved l with
  | true =>
    rw [parseJobPathL_of_resolved l h, parseJobPathL_of_resolved l h]
  | false =>
    apply parseJobPathL_of_resolved
    have hpre : jobPrefix <+: parseJobPathL l := parseJobPathL_startsJob l h
    have : goHasPrefix (parseJobPathL l) jobPrefix = true :=
      List.isPrefixOf_iff_prefix.mpr hpre
    simp [jobPathResolved, this]

/-- Claim C8: ParseJobPath is idempotent, and any already-resolved path, that
is an empty name or one starting with "/job/" or "job/", is returned
unchanged. -/
theorem parseJobPath_idempotent :
    (∀ s : String, ParseJobPath (ParseJobPath s) = ParseJobPath s) ∧
    (∀ s : String, (s = "" ∨ "/job/".data <+: s.data ∨ "job/".data <+: s.data) →
      ParseJobPath s = s) := by
  constructor
  · intro s
    show (⟨parseJobPathL (parseJobPathL s.data)⟩ : String) = ⟨parseJobPathL s.data⟩
    exact String.ext (parseJobPathL_idem s.data)
  · intro s h
    have hg : jobPathResolved s.data = true := by
      rcases h with h | h | h
      · simp [jobPathResolved, h]
      · have h' : jobPrefix <+: s.data := by
          rw [show jobPrefix = "/job/".data from rfl]; exact h
        simp [jobPathResolved, goHasPrefix, List.isPrefixOf_iff_prefix.mpr h']
      · have h' : jobPrefixBare <+: s.data := by
          rw [show jobPrefixBare = "job/".data from rfl]; exact h
        simp [jobPathResolved, goHasPrefix, List.isPrefixOf_iff_prefix.mpr h']
    show (⟨parseJobPathL s.data⟩ : String) = s
    rw [parseJobPathL_of_resolved s.data hg]

/-- Witness for claim C8: the already-resolved path "/job/a" is returned
unchanged by ParseJobPath. -/
theorem parseJobPath_idempotent_witness : ParseJobPath "/job/a" = "/job/a" :=
  parseJobPath_idempotent.2 "/job/a" (Or.inr (Or.inl (by decide)))

/-- Merging the head of the first joined element distributes over goJoin. -/
theorem goJoin_cons_append (sep x y : Str) (l : List Str) :
    goJoin sep ((x ++ y) :: l) = x ++ goJoin sep (y :: l) := by
  cases l with
  | nil => simp [goJoin]
  | cons a as => simp [goJoin, List.append_assoc]

/-- The inner loop of String.intercalate agrees with goJoin once the
accumulator is made the head element. -/
theorem intercalate_go_eq (sep : String) (as : List String) (acc : String) :
    (String.intercalate.go acc sep as).data
      = goJoin sep.data (acc.data :: as.map String.data) := by
  induction as generalizing acc with
  | nil => simp [String.intercalate.go, goJoin]
  | cons a as ih =>
    rw [String.intercalate.go, ih]
    simp only [List.map_cons]
    rw [show (acc ++ sep ++ a).data = (acc.data ++ sep.data) ++ a.data by
      simp [String.data_append]]
    rw [goJoin_cons_append]
    simp [goJoin, List.append_assoc]

/-- goJoin is the character-level String.intercalate. -/
theorem goJoin_eq_intercalate (sep : String) (l : List String) :
    goJoin sep.data (l.map String.data) = (String.intercalate sep l).data := by
  cases l with
  | nil => simp [String.intercalate, goJoin]
  | cons a as => rw [String.intercalate, intercalate_go_eq]; simp

/-- Claim C9: ParsePipelinePath returns the empty string on no segments and
otherwise the segments joined with the separator "/pipelines/" and prefixed
once by "pipelines/"; in particular no segments map to the empty string and
the segments a, b map to "pipelines/a/pipelines/b". -/
theorem parsePipelinePath_spec :
    (∀ l : List String, ParsePipelinePath l =
      if l = [] then "" else "pipelines/" ++ String.intercalate "/pipelines/" l) ∧
    ParsePipelinePath [] = "" ∧
    ParsePipelinePath ["a", "b"] = "pipelines/a/pipelines/b" := by
  refine ⟨fun l => ?_, by decide, by decide⟩
  cases l with
  | nil => decide
  | cons a as =>
    rw [if_neg (List.cons_ne_nil a as)]
    apply String.ext
    show parsePipelinePathL ((a :: as).map String.data)
      = ("pipelines/" ++ String.intercalate "/pipelines/" (a :: as)).data
    rw [String.data_append, ← goJoin_eq_intercalate]
    unfold parsePipelinePathL
    rw [if_neg (by simp)]
    rw [show ("pipelines/" : String).data = pipePrefix from rfl]
    rw [show ("/pipelines/" : String).data = pipeSep from rfl]

/-- When every file parameter opens, the parameter loop reports whether a file
parameter exists, collects the non-file parameters in order, and produces one
file part per file parameter in order. -/
theorem processParams_eq (fs : FileSystem) (params : List ParameterDefinition)
    (hopen : ∀ p ∈ params, isFileParam p = true → (fs p.Filepath).isSome = true) :
    processParams fs params =
      .ok (params.any isFileParam,
           params.filter (fun p => !isFileParam p),
           (params.filter isFileParam).map (filePartOf fs)) := by
  induction params with
  | nil => rfl
  | cons p ps ih =>
    have hops : ∀ q ∈ ps, isFileParam q = true → (fs q.Filepath).isSome = true :=
      fun q hq => hopen q (List.mem_cons_of_mem p hq)
    by_cases hp : p.Type_ = FileParameterDefinition
    · have hf : isFileParam p = true := by simp [isFileParam, hp]
      obtain ⟨content, hc⟩ : ∃ c, fs p.Filepath = some c :=
        Option.isSome_iff_exists.mp (hopen p (List.mem_cons_self p ps) hf)
      simp [processParams, hp, hc, ih hops, List.filter_cons, hf, filePartOf,
        List.any_cons]
    · have hf : isFileParam p = false := by simp [isFileParam, hp]
      simp [processParams, hp, ih hops, List.filter_cons, hf, List.any_cons]

/-- Claim C1: under BuildWithParams, a parameter list containing at least one
file-typed parameter yields a multipart request whose parts are one file part
per file parameter followed by a form field named json wrapping the
serialization of the non-file parameters, sent with the multipart content
type; a list without file parameters yields an URL-encoded form request with
the single json field holding the same payload, sent with the form content
type. -/
theorem buildWithParams_payload (fs : FileSystem) (params : List ParameterDefinition)
    (hopen : ∀ p ∈ params, isFileParam p = true → (fs p.Filepath).isSome = true) :
    buildWithParams fs params =
      .ok (if params.any isFileParam then
            { contentType := ContentType.multipartFormData,
              body := ReqBody.multipart ((params.filter isFileParam).map (filePartOf fs)
                ++ [Part.field "json"
                      (jsonFieldValue (params.filter (fun p => !isFileParam p)))]) }
          else
            { contentType := ContentType.applicationForm,
              body := ReqBody.form
                [("json", jsonFieldValue (params.filter (fun p => !isFileParam p)))] }) := by
  rw [buildWithParams, processParams_eq fs params hopen]
  cases h : params.any isFileParam <;> simp

/-- Witness for claim C1: a file parameter next to a string parameter gives
the multipart body with the file part and the json field over the string
parameter only, and a string parameter alone gives the form body. -/
theorem buildWithParams_payload_witness :
    buildWithParams fsEx [fileParamEx, strParamEx] =
      .ok { contentType := ContentType.multipartFormData,
            body := ReqBody.multipart [Part.filePart "f.txt" "f.txt" [104, 105],
              Part.field "json" (jsonFieldValue [strParamEx])] } ∧
    buildWithParams fsEx [strParamEx] =
      .ok { contentType := ContentType.applicationForm,
            body := ReqBody.form [("json", jsonFieldValue [strParamEx])] } := by
  constructor
  · have h := buildWithParams_payload fsEx [fileParamEx, strParamEx] (by decide)
    rw [show List.any [fileParamEx, strParamEx] isFileParam = true from by decide] at h
    exact h
  · have h := buildWithParams_payload fsEx [strParamEx] (by decide)
    rw [show List.any [strParamEx] isFileParam = false from by decide] at h
    exact h

/-- Claim C2: the serialization step of BuildWithParams marshals a non-file
parameter list of length exactly one as the single JSON object of that
parameter, and any other length, zero included, as the JSON array of all the
marshalled parameters. -/
theorem marshalStringParams_shape :
    (∀ (sps : List ParameterDefinition) (p : ParameterDefinition), sps = [p] →
       marshalStringParams sps = marshalParam p) ∧
    (∀ sps : List ParameterDefinition, sps.length ≠ 1 →
       marshalStringParams sps = Json.arr (sps.map marshalParam)) ∧
    (∀ p : ParameterDefinition, ∃ fields, marshalParam p = Json.obj fields) := by
  refine ⟨fun sps p h => by rw [h]; rfl, fun sps h => ?_, fun p => ⟨_, rfl⟩⟩
  match sps with
  | [] => rfl
  | [x] => exact absurd rfl h
  | x :: y :: t => rfl

/-- Witness for claim C2: one string parameter is marshalled as a JSON object
and the empty list as the empty JSON array. -/
theorem marshalStringParams_shape_witness :
    marshalStringParams [strParamEx] = marshalParam strParamEx ∧
    marshalStringParams ([] : List ParameterDefinition) = Json.arr [] := by
  refine ⟨marshalStringParams_shape.1 [strParamEx] strParamEx rfl, ?_⟩
  have h := marshalStringParams_shape.2.1 [] (by decide)
  simpa using h

/-- The parameter loop fails with the open error of the first file parameter
whose file does not open, whatever comes after it. -/
theorem processParams_error (fs : FileSystem) (l₁ : List ParameterDefinition)
    (p : ParameterDefinition) (l₂ : List ParameterDefinition)
    (h1 : ∀ q ∈ l₁, isFileParam q = true → (fs q.Filepath).isSome = true)
    (hf : isFileParam p = true) (hn : fs p.Filepath = none) :
    processParams fs (l₁ ++ p :: l₂)
      = .error ("open " ++ p.Filepath ++ ": no such file or directory") := by
  have hp : p.Type_ = FileParameterDefinition := of_decide_eq_true hf
  induction l₁ with
  | nil => simp [processParams, hp, hn]
  | cons q l₁ ih =>
    have h1s : ∀ r ∈ l₁, isFileParam r = true → (fs r.Filepath).isSome = true :=
      fun r hr => h1 r (List.mem_cons_of_mem q hr)
    by_cases hq : q.Type_ = FileParameterDefinition
    · obtain ⟨content, hc⟩ : ∃ c, fs q.Filepath = some c :=
        Option.isSome_iff_exists.mp
          (h1 q (List.mem_cons_self q l₁) (by simp [isFileParam, hq]))
      simp [processParams, hq, hc, ih h1s]
    · simp [processParams, hq, ih h1s]

/-- Claim C7: when a file parameter names a file that does not open, the whole
BuildWithParams call aborts with that open error; in this embedding the error
constructor carries no request value, so no HTTP request exists to be issued
and no partial submission is possible. -/
theorem buildWithParams_aborts (fs : FileSystem) (l₁ : List ParameterDefinition)
    (p : ParameterDefinition) (l₂ : List ParameterDefinition)
    (h1 : ∀ q ∈ l₁, isFileParam q = true → (fs q.Filepath).isSome = true)
    (hf : isFileParam p = true) (hn : fs p.Filepath = none) :
    buildWithParams fs (l₁ ++ p :: l₂)
      = .error ("open " ++ p.Filepath ++ ": no such file or directory") := by
  rw [buildWithParams, processParams_error fs l₁ p l₂ h1 hf hn]

/-- Witness for claim C7: with an empty filesystem, a string parameter
followed by a file parameter aborts with the open error of that file. -/
theorem buildWithParams_aborts_witness :
    buildWithParams (fun _ => none) [strParamEx, fileParamEx]
      = .error ("open " ++ "f.txt" ++ ": no such file or directory") := by
  have h := buildWithParams_aborts (fun _ => none) [strParamEx] fileParamEx []
    (by decide) (by decide) rfl
  exact h

/-- The digit loop succeeds exactly on all-digit input. -/
theorem parseDigitsAcc_isSome (l : Str) (acc : Nat) :
    (parseDigitsAcc acc l).isSome = l.all Char.isDigit := by
  induction l generalizing acc with
  | nil => rfl
  | cons c cs ih => by_cases h : c.isDigit <;> simp [parseDigitsAcc, h, ih]

/-- decValue fails exactly on the empty string or a non-digit character. -/
theorem decValue_eq_none (l : Str) :
    decValue l = none ↔ l = [] ∨ l.all Char.isDigit = false := by
  rcases eq_or_ne l [] with rfl | h
  · simp [decValue]
  · rw [decValue, if_neg h, ← Option.not_isSome_iff_eq_none, parseDigitsAcc_isSome]
    simp [h]

/-- A string that fails the integer syntax parses to 0. -/
theorem goParseInt64_invalid (s : String) (h : intSyntaxOk s = false) :
    goParseInt64 s = 0 := by
  unfold goParseInt64
  unfold intSyntaxOk at h
  match hd : s.data with
  | [] => rfl
  | c :: rest =>
    rw [hd] at h
    by_cases hm : c = '-'
    · simp only [hm, if_true, true_or, if_pos] at h ⊢
      rcases Bool.and_eq_false_iff.mp h with h' | h'
      · have : rest = [] := by simpa using h'
        simp [this, decValue, clampNeg]
      · have : decValue rest = none := (decValue_eq_none rest).mpr (Or.inr h')
        simp [this, clampNeg]
    · by_cases hp : c = '+'
      · simp only [hm, hp, if_false, if_true, or_true] at h ⊢
        rcases Bool.and_eq_false_iff.mp h with h' | h'
        · have : rest = [] := by simpa using h'
          simp [this, decValue, clampPos]
        · have : decValue rest = none := (decValue_eq_none rest).mpr (Or.inr h')
          simp [this, clampPos]
      · simp only [hm, hp, if_false, or_self] at h ⊢
        have : decValue (c :: rest) = none :=
          (decValue_eq_none (c :: rest)).mpr (Or.inr h)
        simp [this, clampPos]

/-- Claim C4: after a successful transport, Log reports no error whatever the
status; on status 200 the returned Log carries the body as Text, HasMore true
exactly when the lowercased X-More-Data header is the literal true, and
NextStart the X-Text-Size header parsed as a 64-bit integer; on any other
status it is the default value; and an absent or unparseable header parses to
zero. -/
theorem log_spec :
    (∀ resp : HttpResponse, (logOp (.ok resp)).2 = none) ∧
    (∀ resp : HttpResponse, resp.status = 200 →
       (logOp (.ok resp)).1 =
         { Text := resp.body,
           HasMore := goToLower (resp.headers "X-More-Data") = "true",
           NextStart := goParseInt64 (resp.headers "X-Text-Size") }) ∧
    (∀ resp : HttpResponse, resp.status ≠ 200 →
       (logOp (.ok resp)).1 = { HasMore := false, NextStart := 0, Text := "" }) ∧
    (∀ s : String, intSyntaxOk s = false → goParseInt64 s = 0) ∧
    goParseInt64 "" = 0 := by
  refine ⟨fun resp => rfl, fun resp h => ?_, fun resp h => ?_, goParseInt64_invalid, rfl⟩
  · simp [logOp, logOfResponse, h]
  · simp [logOp, logOfResponse, h]

/-- Witness for claim C4: a 200 response with X-More-Data True and X-Text-Size
42 yields the body with HasMore true and NextStart 42; a 404 response yields
the default Log; the unparseable header text abc parses to zero. -/
theorem log_spec_witness :
    (logOp (.ok respEx)).1 = { HasMore := true, NextStart := 42, Text := "hello" } ∧
    (logOp (.ok respEx404)).1 = { HasMore := false, NextStart := 0, Text := "" } ∧
    goParseInt64 "abc" = 0 := by
  refine ⟨?_, log_spec.2.2.1 respEx404 (by decide), log_spec.2.2.2.1 "abc" (by decide)⟩
  have h := log_spec.2.1 respEx rfl
  rw [h]
  decide

/-- A run of successful fetches accumulates every build in input order. -/
theorem getHistoryLoop_ok (fetch : Nat → Except String Build) (l : List Nat)
    (h : ∀ m ∈ l, ∃ b, fetch m = .ok b) :
    getHistoryLoop fetch l
      = (l.map (fun m => ((fetch m).toOption).getD default), none) := by
  induction l with
  | nil => rfl
  | cons m ms ih =>
    obtain ⟨b, hb⟩ := h m (List.mem_cons_self m ms)
    have := ih (fun q hq => h q (List.mem_cons_of_mem m hq))
    simp [getHistoryLoop, hb, this, Except.toOption]

/-- The loop stops at the first failing fetch, keeping the builds before it. -/
theorem getHistoryLoop_stop (fetch : Nat → Except String Build)
    (l₁ l₂ : List Nat) (n : Nat) (e : String)
    (h1 : ∀ m ∈ l₁, ∃ b, fetch m = .ok b) (h2 : fetch n = .error e) :
    getHistoryLoop fetch (l₁ ++ n :: l₂)
      = (l₁.map (fun m => ((fetch m).toOption).getD default), some e) := by
  induction l₁ with
  | nil => simp [getHistoryLoop, h2]
  | cons m ms ih =>
    obtain ⟨b, hb⟩ := h1 m (List.mem_cons_self m ms)
    have := ih (fun q hq => h1 q (List.mem_cons_of_mem m hq))
    simp [getHistoryLoop, hb, this, Except.toOption]

/-- Claim C5: GetHistory walks the build numbers of the job in input order,
fetching each one individually; when the fetch of some build fails, it
returns exactly the records accumulated before that build together with the
error, and when no fetch fails it returns every record in input order. -/
theorem getHistory_sequential (fetch : Nat → Except String Build)
    (l₁ l₂ : List Nat) (n : Nat) (e : String)
    (h1 : ∀ m ∈ l₁, ∃ b, fetch m = .ok b) (h2 : fetch n = .error e) :
    getHistory (.ok (l₁ ++ n :: l₂)) fetch
      = (l₁.map (fun m => ((fetch m).toOption).getD default), some e) ∧
    getHistory (.ok l₁) fetch
      = (l₁.map (fun m => ((fetch m).toOption).getD default), none) :=
  ⟨getHistoryLoop_stop fetch l₁ l₂ n e h1 h2, getHistoryLoop_ok fetch l₁ h1⟩

/-- Witness for claim C5: over builds 1, 2, 3 with the fetch of build 2
failing, only the record of build 1 is returned alongside the error; with the
failure removed, both records come back in order. -/
theorem getHistory_sequential_witness :
    getHistory (.ok [1, 2, 3]) fetchEx = ([buildEx1], some "boom") ∧
    getHistory (.ok [1]) fetchEx = ([buildEx1], none) := by
  have h := getHistory_sequential fetchEx [1] [3] 2 "boom"
    (fun m hm => by
      have : m = 1 := by simpa using hm
      exact ⟨buildEx1, by rw [this]; rfl⟩) rfl
  exact ⟨h.1, h.2⟩

/-- Claim C6: Delete succeeds exactly on status 200 or 302 and otherwise
returns the descriptive error carrying the received code, and
CreateJobInFolder treats a 302 response as success. -/
theorem deleteJob_status (s : Nat) :
    (deleteJob (.ok s) = none ↔ s = 200 ∨ s = 302) ∧
    (s ≠ 200 → s ≠ 302 →
      deleteJob (.ok s) = some ("unexpected status code: " ++ toString s)) ∧
    createJobInFolder (.ok 302) = none := by
  refine ⟨⟨fun h => ?_, fun h => ?_⟩, fun h1 h2 => by simp [deleteJob, h1, h2], by decide⟩
  · by_contra hc
    push_neg at hc
    simp [deleteJob, hc.1, hc.2] at h
  · rcases h with rfl | rfl <;> simp [deleteJob]

/-- Witness for claim C6: status 404 is the descriptive error and status 302
is success. -/
theorem deleteJob_status_witness :
    deleteJob (.ok 404) = some ("unexpected status code: " ++ toString 404) ∧
    deleteJob (.ok 302) = none :=
  ⟨(deleteJob_status 404).2.1 (by decide) (by decide),
   (deleteJob_status 302).1.mpr (Or.inr rfl)⟩

/-- No match in the plugin list leaves the loop empty-handed. -/
theorem findPluginLoop_absent (name : String) (l : List InstalledPlugin)
    (h : ∀ p ∈ l, p.ShortName ≠ name) :
    findPluginLoop name l = none := by
  induction l with
  | nil => rfl
  | cons p ps ih =>
    rw [findPluginLoop, if_neg (h p (List.mem_cons_self p ps))]
    exact ih (fun q hq => h q (List.mem_cons_of_mem p hq))

/-- Claim C10: when the plugin list fetch succeeds and no installed plugin has
the requested ShortName, FindInstalledPlugin returns no plugin and no error.
-/
theorem findInstalledPlugin_absent (plugins : InstalledPluginList) (name : String)
    (h : ∀ p ∈ plugins.Plugins, p.ShortName ≠ name) :
    findInstalledPlugin (.ok plugins) name = (none, none) := by
  rw [findInstalledPlugin]
  rw [findPluginLoop_absent name plugins.Plugins h]

/-- Witness for claim C10: a list holding only the git plugin yields no plugin
and no error when asked for blueocean. -/
theorem findInstalledPlugin_absent_witness :
    findInstalledPlugin (.ok { Plugins := [pluginEx] }) "blueocean" = (none, none) :=
  findInstalledPlugin_absent { Plugins := [pluginEx] } "blueocean" (by decide)

end JenkinsClient
